import Mathlib

/-!
Verification of the lit-feature repository: a shallow embedding of the
feature resolution engine (`src/feature-resolver.ts`), the feature instance
runtime (`src/lit-feature.ts`) and the composition manager
(`src/services/feature-manager.ts`), together with proofs of the spec's
testable properties.

Modelling conventions:
* JavaScript runtime values held in host/feature reactive properties are
  modelled as `JSVal := Option Nat` (`none` is `undefined`); `Object.is`
  becomes decidable equality on that type.
* JavaScript plain objects and `Map`s are modelled as association lists that
  keep insertion order; `Map.set` / property assignment updates the first
  occurrence in place, `delete` removes it, and a fresh key is appended.
* Configuration objects handled by `lodash.merge` are modelled by the
  mutually inductive `JVal`/`JObj` (atoms and ordered string-keyed objects).
* A JavaScript class is modelled as the list of its own data together with
  the data of all its prototype-chain ancestors, head first
  (`Object.getPrototypeOf` is `List.tail`); static fields that a class does
  not own are read from the nearest ancestor that owns them, as in JS.
-/

namespace LitFeature

/-- JavaScript runtime value stored in a reactive property; `none` models
`undefined`. -/
abbrev JSVal := Option Nat

mutual

/-- A configuration value: an opaque leaf atom or a nested object. -/
inductive JVal : Type where
  | atom : Nat → JVal
  | obj : JObj → JVal
  deriving DecidableEq

/-- An ordered string-keyed object of configuration values. -/
inductive JObj : Type where
  | nil : JObj
  | cons : String → JVal → JObj → JObj
  deriving DecidableEq

end

/-- Key lookup in a configuration object (first occurrence). -/
def lookupJ : JObj → String → Option JVal
  | JObj.nil, _ => none
  | JObj.cons k v rest, key => if k = key then some v else lookupJ rest key

/-- Property assignment on a configuration object: update the first
occurrence in place, or append a fresh key at the end (JS object insertion
order semantics). -/
def setKeyJ : JObj → String → JVal → JObj
  | JObj.nil, key, v => JObj.cons key v JObj.nil
  | JObj.cons k w rest, key, v =>
      if k = key then JObj.cons k v rest else JObj.cons k w (setKeyJ rest key v)

mutual

/-- `lodash.merge` on a destination and source value: when both sides are
objects the objects merge recursively, otherwise the source value wins. -/
def mergeVal : JVal → JVal → JVal
  | JVal.obj d, JVal.obj s => JVal.obj (mergeInto d s)
  | _, s => s
termination_by structural _ b => b

/-- `lodash.merge` of a source object onto a destination object, processing
the source keys left to right. -/
def mergeInto : JObj → JObj → JObj
  | dst, JObj.nil => dst
  | dst, JObj.cons k v rest =>
      let newv := match lookupJ dst k with
        | some dv => mergeVal dv v
        | none => v
      mergeInto (setKeyJ dst k newv) rest
termination_by structural _ s => s

end

/-- `merge({}, a, b)` from the resolver: deep merge of `b` onto a copy of
`a`. -/
def mergeTwo (a b : JObj) : JObj := mergeInto a b

-- Association-list primitives shared by every map-like structure.

/-- `Map.get` / property read: first binding of the key. -/
def lookupA {α : Type} : List (String × α) → String → Option α
  | [], _ => none
  | (k, v) :: rest, key => if k = key then some v else lookupA rest key

/-- `Map.set` / property write: update the first binding in place, append a
fresh key at the end. -/
def setKey {α : Type} : List (String × α) → String → α → List (String × α)
  | [], key, v => [(key, v)]
  | (k, w) :: rest, key, v =>
      if k = key then (k, v) :: rest else (k, w) :: setKey rest key v

/-- `delete` on a JS object: drop the binding of the key. -/
def removeKey {α : Type} : List (String × α) → String → List (String × α)
  | [], _ => []
  | (k, w) :: rest, key => if k = key then rest else (k, w) :: removeKey rest key

/-- `Object.assign(target, src)`: fold every binding of `src` onto `target`
with `setKey`. -/
def assignAll {α : Type} (target src : List (String × α)) : List (String × α) :=
  src.foldl (fun t kv => setKey t kv.1 kv.2) target

/-- Keys of an association list, in order. -/
def keysA {α : Type} : List (String × α) → List String
  | [] => []
  | (k, _) :: rest => k :: keysA rest

/-! ## Feature instance runtime (`src/lit-feature.ts`) -/

/-- One `requestUpdate` call observed by the host: either
`requestUpdate(propertyName, oldValue)` from a property observer, or the
argumentless consolidated `requestUpdate()` issued by the manager. -/
inductive UpdateReq : Type where
  | named : String → JSVal → UpdateReq
  | plain : UpdateReq
  deriving DecidableEq

/-- The host as seen by this core: gettable/settable named reactive fields
plus the ordered log of `requestUpdate` calls it has received. -/
structure HostState : Type where
  props : List (String × JSVal)
  updates : List UpdateReq
  deriving DecidableEq

/-- Read a host property; an absent field reads as `undefined`. -/
def getHostVal (hs : HostState) (p : String) : JSVal :=
  (lookupA hs.props p).getD none

/-- The mutable state of a `LitFeature` instance: the `_internalValues`
cache, the `_declaredProperties` set (in insertion order) and the
`_suspendUpdates` flag. -/
structure FeatureState : Type where
  internal : List (String × JSVal)
  declared : List String
  suspend : Bool
  deriving DecidableEq

/-- `getInternalValue`: a `Map.get` that reads absent keys as `undefined`. -/
def getInternalValue (fs : FeatureState) (p : String) : JSVal :=
  (lookupA fs.internal p).getD none

/-- `setInternalValue`. -/
def setInternalValue (fs : FeatureState) (p : String) (v : JSVal) : FeatureState :=
  { fs with internal := setKey fs.internal p v }

/-- The property observer setter installed by `_createPropertyObserver`:
read the host's old value and the internal cache, then apply the three
guards — identical-to-internal is a no-op, identical-to-host only mirrors
into the cache, and otherwise the value is written to the host, mirrored,
and (unless updates are suspended) one `requestUpdate(p, oldValue)` is
issued. -/
def setProp (fs : FeatureState) (hs : HostState) (p : String) (v : JSVal) :
    FeatureState × HostState :=
  let oldValue := getHostVal hs p
  let internalValue := getInternalValue fs p
  if internalValue = v then
    (fs, hs)
  else if oldValue = v then
    (setInternalValue fs p v, hs)
  else
    let hs1 : HostState := { hs with props := setKey hs.props p v }
    let fs1 := setInternalValue fs p v
    let hs2 : HostState :=
      if fs.suspend then hs1
      else { hs1 with updates := hs1.updates ++ [UpdateReq.named p oldValue] }
    (fs1, hs2)

/-- One property's reconciliation step inside `firstUpdated`: a defined host
value differing from the cache is assigned through the property setter; a
matching host value is only mirrored; with the host undefined, a defined
internal value is assigned through the setter; otherwise `undefined` is
mirrored. -/
def reconcileProp (st : FeatureState × HostState) (p : String) :
    FeatureState × HostState :=
  let fs := st.1
  let hs := st.2
  let hostValue := getHostVal hs p
  let internalValue := getInternalValue fs p
  if hostValue ≠ none then
    if hostValue ≠ internalValue then setProp fs hs p hostValue
    else (setInternalValue fs p hostValue, hs)
  else if internalValue ≠ none then setProp fs hs p internalValue
  else (setInternalValue fs p hostValue, hs)

/-- `LitFeature.firstUpdated`: reconcile every property this feature
declared, in declaration order. -/
def firstUpdatedRun (fs : FeatureState) (hs : HostState) :
    FeatureState × HostState :=
  fs.declared.foldl reconcileProp (fs, hs)

/-- `LitFeature.updated`: one-way host → feature sync of every changed
property into the internal cache. -/
def updatedRun (fs : FeatureState) (hs : HostState) (changed : List String) :
    FeatureState :=
  changed.foldl (fun fs p => setInternalValue fs p (getHostVal hs p)) fs

/-! ## Composition manager (`src/services/feature-manager.ts`) -/

/-- The runtime description of one feature class as the manager consumes it:
the keys of its static `properties` object (observers are installed for
exactly these) and the default writes its field initializers perform, in
order, during construction. -/
structure FeatureRT : Type where
  declared : List String
  initWrites : List (String × JSVal)
  deriving DecidableEq

/-- `new feature.class(host, config)`: install the property observers over
an empty internal cache with updates not suspended, then run the class
field initializers, each of which assigns its default through the property
setter. -/
def constructInstance (hs : HostState) (spec : FeatureRT) :
    FeatureState × HostState :=
  let fs0 : FeatureState := { internal := [], declared := spec.declared, suspend := false }
  spec.initWrites.foldl (fun st kv => setProp st.1 st.2 kv.1 kv.2) (fs0, hs)

/-- `FeatureManager._initializeFeatures`: construct every feature instance
in declaration order, suspending its update requests only after its
constructor returns; then resume updates on every instance and issue one
argumentless consolidated `requestUpdate()` on the host. -/
def initFeatures (hs : HostState) (specs : List (String × FeatureRT)) :
    List (String × FeatureState) × HostState :=
  let step := fun (acc : List (String × FeatureState) × HostState)
      (entry : String × FeatureRT) =>
    let built := constructInstance acc.2 entry.2
    let suspended := { built.1 with suspend := true }
    (acc.1 ++ [(entry.1, suspended)], built.2)
  let batch1 := specs.foldl step ([], hs)
  let instances := batch1.1.map (fun nfs => (nfs.1, { nfs.2 with suspend := false }))
  let hs2 : HostState := { batch1.2 with updates := batch1.2.updates ++ [UpdateReq.plain] }
  (instances, hs2)

/-- The observable behaviour of one feature's implementation of a given
lifecycle hook name: absent (`not a function`), or a body that records its
invocation and returns, or a body that records its invocation and throws. -/
inductive HookBody : Type where
  | ok : HookBody
  | throws : Nat → HookBody
  deriving DecidableEq

/-- Dispatch loop of `FeatureManager.processLifecycle`: walk the attached
instances in declaration order; call the hook when it is a function,
passing the arguments through unchanged; an exception propagates and aborts
the remaining instances. The result is the call log plus the uncaught
exception, if any. -/
def dispatchHooks : List (String × Option HookBody) → List JSVal →
    List (String × List JSVal) → List (String × List JSVal) × Option Nat
  | [], _, log => (log, none)
  | (_, none) :: rest, args, log => dispatchHooks rest args log
  | (name, some HookBody.ok) :: rest, args, log =>
      dispatchHooks rest args (log ++ [(name, args)])
  | (name, some (HookBody.throws e)) :: _, args, log =>
      (log ++ [(name, args)], some e)

/-- `FeatureManager.processLifecycle(methodName, ...args)` starting from an
empty call log. -/
def processLifecycle (insts : List (String × Option HookBody)) (args : List JSVal) :
    List (String × List JSVal) × Option Nat :=
  dispatchHooks insts args []

/-! ## Feature resolution (`src/feature-resolver.ts`)

A JS class is a non-empty list of per-class nodes, head first; `List.tail`
is `Object.getPrototypeOf`. Static fields are `Option`-valued on each node:
`none` means the class does not own the field, so a read falls through to
the nearest ancestor owning it, exactly as JS prototype reads of static
members do. Property declarations and style blocks are opaque tokens. -/

/-- A value of a configure entry's `properties` record: a replacement
`PropertyDeclaration` (opaque token) or the `'disable'` string sentinel. -/
inductive PropOverride : Type where
  | decl : Nat → PropOverride
  | disable : PropOverride
  deriving DecidableEq

/-- The per-class data of a feature class: the `LIT_FEATURE_MARKER`, whether
this class is the `LitFeature` base itself, its own static `properties`
object, its own `FEATURE_META.featureProperties` decorator map, and its own
static `styles`. -/
structure FeatureNode : Type where
  marker : Bool
  isBase : Bool
  staticProps : Option (List (String × Nat))
  metaProps : Option (List (String × Nat))
  styles : Option (List Nat)
  deriving DecidableEq

/-- A feature class with its prototype chain, head first. -/
abbrev FeatureClassT := List FeatureNode

/-- The loop shared by `collectFeatureStyles` and
`collectFeatureProperties`: walk up while the class carries
`LIT_FEATURE_MARKER`, prepending each class, and stop (inclusively) at the
`LitFeature` base class. Returns the chain root-most first. -/
def featureChain : FeatureClassT → List FeatureClassT
  | [] => []
  | n :: rest =>
      if n.marker then
        if n.isBase then [n :: rest]
        else featureChain rest ++ [n :: rest]
      else []

/-- JS read of the inherited static `properties` of a feature class. -/
def visStaticProps : FeatureClassT → List (String × Nat)
  | [] => []
  | n :: rest => match n.staticProps with
      | some l => l
      | none => visStaticProps rest

/-- `getFeaturePropertyMetadata`: JS read of the inherited `FEATURE_META`
decorator property map, empty when no class in the chain owns one. -/
def visMetaProps : FeatureClassT → List (String × Nat)
  | [] => []
  | n :: rest => match n.metaProps with
      | some l => l
      | none => visMetaProps rest

/-- JS read of the inherited static `styles` of a feature class, flattened
to a list of style blocks. -/
def visStyles : FeatureClassT → List Nat
  | [] => []
  | n :: rest => match n.styles with
      | some l => l
      | none => visStyles rest

/-- `collectFeatureProperties`: over the feature chain root-most first,
assign each class's static `properties` and then its decorator metadata
onto the running record. -/
def collectFeatureProperties (fc : FeatureClassT) : List (String × Nat) :=
  (featureChain fc).foldl
    (fun props c => assignAll (assignAll props (visStaticProps c)) (visMetaProps c)) []

/-- `collectFeatureStyles`: concatenate each chain class's style blocks,
root-most first. -/
def collectFeatureStyles (fc : FeatureClassT) : List Nat :=
  (featureChain fc).foldl (fun st c => st ++ visStyles c) []

/-- `FeatureDefinition`: the feature class, its default config and the
optional `enabled` flag. -/
structure FeatureDefinition : Type where
  classRef : FeatureClassT
  config : Option JObj
  enabled : Option Bool
  deriving DecidableEq

/-- `FeatureConfigEntry | 'disable'`: the disable sentinel, or an override
entry with optional `config` and optional `properties`. -/
inductive CfgEntry : Type where
  | disable : CfgEntry
  | entry : Option JObj → Option (List (String × PropOverride)) → CfgEntry
  deriving DecidableEq

/-- `mergeConfigEntries`: a `'disable'` next entry short-circuits; a missing
or disabled accumulator is replaced by a copy of the next entry; otherwise
the configs deep-merge and the next entry's `properties` fold key-wise onto
a copy of the accumulated ones, a `'disable'` value deleting the key. -/
def mergeConfigEntries (existing : Option CfgEntry) (next : CfgEntry) : CfgEntry :=
  match next with
  | CfgEntry.disable => CfgEntry.disable
  | CfgEntry.entry ncfg nprops =>
      match existing with
      | none => CfgEntry.entry ncfg nprops
      | some CfgEntry.disable => CfgEntry.entry ncfg nprops
      | some (CfgEntry.entry ecfg eprops) =>
          let mergedConfig := mergeTwo (ecfg.getD JObj.nil) (ncfg.getD JObj.nil)
          let mergedProps := (nprops.getD []).foldl
            (fun mp kv =>
              match kv.2 with
              | PropOverride.disable => removeKey mp kv.1
              | PropOverride.decl d => setKey mp kv.1 (PropOverride.decl d))
            (eprops.getD [])
          CfgEntry.entry (some mergedConfig) (some mergedProps)

/-- The per-class data of a host class: a cache identity (standing for the
JS reference identity of the class object), the `LIT_CORE_MARKER`, the
class's own static `provide`/`configure` records and its own decorator
`FEATURE_META` provide/configure maps. -/
structure HostNode : Type where
  cid : Nat
  marker : Bool
  provide : Option (List (String × FeatureDefinition))
  configure : Option (List (String × CfgEntry))
  metaProvide : Option (List (String × FeatureDefinition))
  metaConfigure : Option (List (String × CfgEntry))
  deriving DecidableEq

/-- A host class with its prototype chain, head first. -/
abbrev HostClassT := List HostNode

/-- `getInheritanceChain`: walk up while the class carries
`LIT_CORE_MARKER`, prepending each class; the first unmarked ancestor stops
the walk. Returns the chain root-most first. -/
def getInheritanceChain : HostClassT → List HostClassT
  | [] => []
  | n :: rest => if n.marker then getInheritanceChain rest ++ [n :: rest] else []

/-- JS read of the inherited static `provide` record (`current.provide ||
\x7b\x7d` reads through the prototype chain). -/
def visProvide : HostClassT → List (String × FeatureDefinition)
  | [] => []
  | n :: rest => match n.provide with
      | some l => l
      | none => visProvide rest

/-- JS read of the inherited static `configure` record. -/
def visConfigure : HostClassT → List (String × CfgEntry)
  | [] => []
  | n :: rest => match n.configure with
      | some l => l
      | none => visConfigure rest

/-- JS read of the inherited `FEATURE_META.provide` decorator map. -/
def visMetaProvide : HostClassT → List (String × FeatureDefinition)
  | [] => []
  | n :: rest => match n.metaProvide with
      | some l => l
      | none => visMetaProvide rest

/-- JS read of the inherited `FEATURE_META.configure` decorator map. -/
def visMetaConfigure : HostClassT → List (String × CfgEntry)
  | [] => []
  | n :: rest => match n.metaConfigure with
      | some l => l
      | none => visMetaConfigure rest

/-- One class's contribution to the chain walk of `resolveFeatures`: fold
its static and decorator provide entries (last write per name wins) and its
configure entries (merged through `mergeConfigEntries`) onto the running
`provides` and `configs` maps. -/
def foldMetaStep
    (acc : List (String × FeatureDefinition) × List (String × CfgEntry))
    (c : HostClassT) :
    List (String × FeatureDefinition) × List (String × CfgEntry) :=
  let provides1 := (visProvide c).foldl
    (fun m kv => setKey m kv.1 kv.2) acc.1
  let configs1 := (visConfigure c).foldl
    (fun m kv => setKey m kv.1 (mergeConfigEntries (lookupA m kv.1) kv.2)) acc.2
  let provides2 := (visMetaProvide c).foldl
    (fun m kv => setKey m kv.1 kv.2) provides1
  let configs2 := (visMetaConfigure c).foldl
    (fun m kv => setKey m kv.1 (mergeConfigEntries (lookupA m kv.1) kv.2)) configs1
  (provides2, configs2)

/-- The chain walk of `resolveFeatures`, over the whole chain in order. -/
def foldMeta (chain : List HostClassT) :
    List (String × FeatureDefinition) × List (String × CfgEntry) :=
  chain.foldl foldMetaStep ([], [])

/-- Apply a configure entry's `properties` overrides onto the collected
feature properties: a `'disable'` value deletes the property,
any other value replaces or inserts it. -/
def applyOverrides (props : List (String × Nat))
    (po : List (String × PropOverride)) : List (String × Nat) :=
  po.foldl
    (fun mp kv =>
      match kv.2 with
      | PropOverride.disable => removeKey mp kv.1
      | PropOverride.decl d => setKey mp kv.1 d)
    props

/-- One entry of the resolved `features` map. -/
structure ResolvedFeature : Type where
  classRef : FeatureClassT
  config : JObj
  deriving DecidableEq

/-- `ResolvedFeatures`: flattened properties, concatenated styles and the
surviving features with their final configs. -/
structure ResolvedFeatures : Type where
  properties : List (String × Nat)
  styles : List Nat
  features : List (String × ResolvedFeature)
  deriving DecidableEq

/-- The build loop of `resolveFeatures`: for every provided feature in
insertion order, skip it when its folded configure entry is `'disable'` or
its definition is explicitly disabled; otherwise collect its chain styles
and properties, apply the configure entry's property overrides, flatten the
properties into the running record, and record the feature with its final
deep-merged config. -/
def buildStep (configs : List (String × CfgEntry)) (acc : ResolvedFeatures)
    (nd : String × FeatureDefinition) : ResolvedFeatures :=
  let name := nd.1
  let definition := nd.2
  let featureConfig := lookupA configs name
  if featureConfig = some CfgEntry.disable ∨ definition.enabled = some false then
    acc
  else
    let featureStyles := collectFeatureStyles definition.classRef
    let merged0 := collectFeatureProperties definition.classRef
    let mergedProperties := match featureConfig with
      | some (CfgEntry.entry _ (some po)) => applyOverrides merged0 po
      | _ => merged0
    let finalConfig := match featureConfig with
      | some (CfgEntry.entry cfg _) =>
          mergeTwo (definition.config.getD JObj.nil) (cfg.getD JObj.nil)
      | _ => definition.config.getD JObj.nil
    { properties := assignAll acc.properties mergedProperties
      styles := acc.styles ++ featureStyles
      features := acc.features ++
        [(name, { classRef := definition.classRef, config := finalConfig })] }

/-- The build loop over every provided feature in insertion order. -/
def buildResolved (provides : List (String × FeatureDefinition))
    (configs : List (String × CfgEntry)) : ResolvedFeatures :=
  provides.foldl (buildStep configs)
    { properties := [], styles := [], features := [] }

/-- The uncached body of `resolveFeatures`: walk the inheritance chain, fold
the metadata, and build the resolved state. -/
def resolveFeaturesCore (ctor : HostClassT) : ResolvedFeatures :=
  let meta := foldMeta (getInheritanceChain ctor)
  buildResolved meta.1 meta.2

/-- The per-class `RESOLVED_CACHE`, keyed by class identity. -/
abbrev ResolveCache := List (Nat × ResolvedFeatures)

/-- Cache key of a host class: the identity of the class object itself. -/
def hostCid (ctor : HostClassT) : Nat :=
  match ctor with
  | [] => 0
  | n :: _ => n.cid

/-- Cache lookup, mirroring `hasOwnProperty(ctor, RESOLVED_CACHE)`. -/
def cacheFind (cache : ResolveCache) (cid : Nat) : Option ResolvedFeatures :=
  match cache with
  | [] => none
  | (k, r) :: rest => if k = cid then some r else cacheFind rest cid

/-- `resolveFeatures` with its memoization: return the cached result when
this exact class was already resolved, otherwise compute, cache and return
it. -/
def resolveFeatures (ctor : HostClassT) (cache : ResolveCache) :
    ResolvedFeatures × ResolveCache :=
  match cacheFind cache (hostCid ctor) with
  | some r => (r, cache)
  | none =>
      let r := resolveFeaturesCore ctor
      (r, cache ++ [(hostCid ctor, r)])

/-! ## Spec-side views

Independent renderings of the spec's contracts, used to state theorems
against the code-derived definitions above. -/

/-- The full ancestor path of a host class (the class first, then its
parent, and so on), ignoring markers. -/
def hostAncestors : HostClassT → List HostClassT
  | [] => []
  | n :: rest => (n :: rest) :: hostAncestors rest

/-- Whether a host class carries the `LIT_CORE_MARKER`. -/
def hostMarked : HostClassT → Bool
  | [] => false
  | n :: _ => n.marker

/-- The full ancestor path of a feature class, ignoring markers. -/
def featureAncestors : FeatureClassT → List FeatureClassT
  | [] => []
  | n :: rest => (n :: rest) :: featureAncestors rest

/-- Whether a feature class carries the `LIT_FEATURE_MARKER`. -/
def featureMarked : FeatureClassT → Bool
  | [] => false
  | n :: _ => n.marker

/-- Well-formedness of a feature hierarchy: the `LitFeature` base class has
no marked ancestor (in the real system its superclass is `Object`). -/
def featureBaseOk : FeatureClassT → Bool
  | [] => true
  | n :: rest => (!n.isBase || !featureMarked rest) && featureBaseOk rest

/-- Keys of a configuration object, in order. -/
def keysJ : JObj → List String
  | JObj.nil => []
  | JObj.cons k _ rest => k :: keysJ rest

/-- The final config the build loop computes for a definition under a
folded configure entry (lines 256-258 of the resolver). -/
def finalConfigOf (d : FeatureDefinition) (fc : Option CfgEntry) : JObj :=
  match fc with
  | some (CfgEntry.entry cfg _) => mergeTwo (d.config.getD JObj.nil) (cfg.getD JObj.nil)
  | _ => d.config.getD JObj.nil

/-- The calls a lifecycle dispatch pass makes when nothing throws: one call
per instance that defines the hook, in order, with the arguments passed
through unchanged. -/
def hookCalls : List (String × Option HookBody) → List JSVal →
    List (String × List JSVal)
  | [], _ => []
  | (_, none) :: rest, args => hookCalls rest args
  | (name, some _) :: rest, args => (name, args) :: hookCalls rest args

/-- Whether none of the instances' hook bodies throws. -/
def noThrow : List (String × Option HookBody) → Bool
  | [] => true
  | (_, some (HookBody.throws _)) :: _ => false
  | _ :: rest => noThrow rest

/-- Whether every class of the hierarchy owns no provide/configure metadata
at all, so that each metadata read evaluates to `undefined`. -/
def allMetaAbsent : HostClassT → Bool
  | [] => true
  | n :: rest =>
      n.provide.isNone && n.configure.isNone && n.metaProvide.isNone &&
        n.metaConfigure.isNone && allMetaAbsent rest

/-! ## Helper lemmas -/

theorem lookupA_append {α : Type} (l1 l2 : List (String × α)) (k : String) :
    lookupA (l1 ++ l2) k =
      match lookupA l1 k with
      | some v => some v
      | none => lookupA l2 k := by
  induction l1 with
  | nil => simp [lookupA]
  | cons hd tl ih =>
      by_cases h : hd.1 = k <;> simp [lookupA, h, ih]

theorem lookupA_setKey_ne {α : Type} (l : List (String × α)) (key k : String)
    (v : α) (h : k ≠ key) : lookupA (setKey l key v) k = lookupA l k := by
  have h2 : key ≠ k := Ne.symm h
  induction l with
  | nil => simp [setKey, lookupA, h2]
  | cons hd tl ih =>
      by_cases hk : hd.1 = key
      · simp [setKey, lookupA, hk, h2]
      · by_cases hk2 : hd.1 = k <;> simp [setKey, lookupA, hk, hk2, ih, h]

theorem lookupJ_setKeyJ_same : ∀ (d : JObj) (k : String) (v : JVal),
    lookupJ (setKeyJ d k v) k = some v
  | JObj.nil, k, v => by simp [setKeyJ, lookupJ]
  | JObj.cons k2 w rest, k, v => by
      by_cases hk : k2 = k <;>
        simp [setKeyJ, lookupJ, hk, lookupJ_setKeyJ_same rest k v]

theorem lookupJ_setKeyJ_ne : ∀ (d : JObj) (key k : String) (v : JVal),
    k ≠ key → lookupJ (setKeyJ d key v) k = lookupJ d k
  | JObj.nil, key, k, v, h => by
      simp [setKeyJ, lookupJ, Ne.symm h]
  | JObj.cons k2 w rest, key, k, v, h => by
      by_cases hk : k2 = key
      · simp [setKeyJ, lookupJ, hk, Ne.symm h]
      · by_cases hk2 : k2 = k <;>
          simp [setKeyJ, lookupJ, hk, hk2, lookupJ_setKeyJ_ne rest key k v h,
            Ne.symm h, h]

theorem lookupJ_none_of_not_mem : ∀ (o : JObj) (k : String), k ∉ keysJ o →
    lookupJ o k = none
  | JObj.nil, _, _ => rfl
  | JObj.cons k2 v rest, k, h => by
      simp [keysJ] at h
      simp [lookupJ, Ne.symm h.1, lookupJ_none_of_not_mem rest k h.2]

theorem lookupJ_mergeInto (k : String) : ∀ (s d : JObj), (keysJ s).Nodup →
    lookupJ (mergeInto d s) k =
      match lookupJ s k with
      | none => lookupJ d k
      | some sv => some (match lookupJ d k with
          | some dv => mergeVal dv sv
          | none => sv)
  | JObj.nil, d, _ => by simp [mergeInto, lookupJ]
  | JObj.cons k2 v rest, d, hnd => by
      have hsplit : k2 ∉ keysJ rest ∧ (keysJ rest).Nodup := by
        simpa [keysJ, List.nodup_cons] using hnd
      have hk2notin : k2 ∉ keysJ rest := hsplit.1
      have hnd2 : (keysJ rest).Nodup := hsplit.2
      rw [mergeInto]
      rw [lookupJ_mergeInto k rest _ hnd2]
      by_cases hk : k2 = k
      · subst hk
        rw [lookupJ_none_of_not_mem rest k2 hk2notin]
        simp [lookupJ, lookupJ_setKeyJ_same]
      · simp [lookupJ, hk, lookupJ_setKeyJ_ne d k2 k _ (Ne.symm hk)]

theorem lookupA_none_of_not_mem {α : Type} : ∀ (l : List (String × α))
    (k : String), k ∉ keysA l → lookupA l k = none
  | [], _, _ => rfl
  | (k1, v1) :: tl, k, h => by
      simp [keysA] at h
      simp [lookupA, Ne.symm h.1, lookupA_none_of_not_mem tl k h.2]

theorem lookupA_append_single_ne {α : Type} (l : List (String × α))
    (k2 : String) (x : α) (k : String) (h : k2 ≠ k) :
    lookupA (l ++ [(k2, x)]) k = lookupA l k := by
  rw [lookupA_append]
  cases hl : lookupA l k <;> simp [lookupA, h]

theorem buildFold_lookup_frame (configs : List (String × CfgEntry)) :
    ∀ (provides : List (String × FeatureDefinition)) (acc : ResolvedFeatures)
      (name : String), lookupA provides name = none →
      lookupA (provides.foldl (buildStep configs) acc).features name =
        lookupA acc.features name := by
  intro provides
  induction provides with
  | nil => intro acc name _; rfl
  | cons hd tl ih =>
      intro acc name h
      have hne : hd.1 ≠ name := by
        intro e
        simp [lookupA, e] at h
      have htl : lookupA tl name = none := by
        simpa [lookupA, hne] using h
      rw [List.foldl_cons, ih _ name htl]
      by_cases hskip : lookupA configs hd.1 = some CfgEntry.disable ∨
          hd.2.enabled = some false
      · simp [buildStep, hskip]
      · simp only [buildStep, hskip, if_neg, ite_false]
        simp [lookupA_append_single_ne _ _ _ _ hne]

theorem buildFold_lookup (configs : List (String × CfgEntry)) :
    ∀ (provides : List (String × FeatureDefinition)) (acc : ResolvedFeatures)
      (name : String) (d : FeatureDefinition), (keysA provides).Nodup →
      lookupA provides name = some d → lookupA acc.features name = none →
      lookupA (provides.foldl (buildStep configs) acc).features name =
        (if lookupA configs name = some CfgEntry.disable ∨ d.enabled = some false
          then none
          else some ⟨d.classRef, finalConfigOf d (lookupA configs name)⟩) := by
  intro provides
  induction provides with
  | nil => intro acc name d _ hp _; simp [lookupA] at hp
  | cons hd tl ih =>
      intro acc name d hnd hp hacc
      obtain ⟨k0, d0⟩ := hd
      have hsplit : k0 ∉ keysA tl ∧ (keysA tl).Nodup := by
        simpa [keysA, List.nodup_cons] using hnd
      by_cases hk : k0 = name
      · subst hk
        have hd0 : d0 = d := by simpa [lookupA] using hp
        subst hd0
        have htl : lookupA tl k0 = none :=
          lookupA_none_of_not_mem tl k0 hsplit.1
        rw [List.foldl_cons, buildFold_lookup_frame configs tl _ k0 htl]
        by_cases hskip : lookupA configs k0 = some CfgEntry.disable ∨
            d0.enabled = some false
        · simp [buildStep, hskip, hacc]
        · simp only [buildStep, hskip, ite_false]
          cases hc : lookupA configs k0 with
          | none =>
              simp [hc, lookupA_append, hacc, lookupA, finalConfigOf]
          | some ce =>
              cases ce with
              | disable => exact absurd (Or.inl hc) hskip
              | entry c p =>
                  simp [hc, lookupA_append, hacc, lookupA, finalConfigOf]
      · have htl : lookupA tl name = some d := by simpa [lookupA, hk] using hp
        rw [List.foldl_cons]
        apply ih _ name d hsplit.2 htl
        by_cases hskip : lookupA configs k0 = some CfgEntry.disable ∨
            d0.enabled = some false
        · simp [buildStep, hskip, hacc]
        · simp only [buildStep, hskip, ite_false]
          simp [lookupA_append_single_ne _ _ _ _ hk, hacc]

theorem buildResolved_configs_agree :
    ∀ (provides : List (String × FeatureDefinition)) (acc : ResolvedFeatures)
      (configs1 configs2 : List (String × CfgEntry)),
    (∀ k, (∃ v, lookupA provides k = some v) →
      lookupA configs1 k = lookupA configs2 k) →
    provides.foldl (buildStep configs1) acc =
      provides.foldl (buildStep configs2) acc := by
  intro provides
  induction provides with
  | nil => intro acc c1 c2 _; rfl
  | cons hd tl ih =>
      intro acc c1 c2 h
      obtain ⟨k0, d0⟩ := hd
      have heq : lookupA c1 k0 = lookupA c2 k0 := h k0 ⟨d0, by simp [lookupA]⟩
      have hstep : buildStep c1 acc (k0, d0) = buildStep c2 acc (k0, d0) := by
        simp [buildStep, heq]
      rw [List.foldl_cons, List.foldl_cons, hstep]
      apply ih
      intro k hk
      obtain ⟨v, hv⟩ := hk
      by_cases hkk : k0 = k
      · exact h k ⟨d0, by simp [lookupA, hkk]⟩
      · exact h k ⟨v, by simpa [lookupA, hkk] using hv⟩

theorem vis_absent : ∀ l : HostClassT, allMetaAbsent l = true →
    visProvide l = [] ∧ visConfigure l = [] ∧ visMetaProvide l = [] ∧
      visMetaConfigure l = [] := by
  intro l
  induction l with
  | nil => intro _; exact ⟨rfl, rfl, rfl, rfl⟩
  | cons n rest ih =>
      intro h
      simp only [allMetaAbsent, Bool.and_eq_true, Option.isNone_iff_eq_none] at h
      obtain ⟨⟨⟨⟨h1, h2⟩, h3⟩, h4⟩, h5⟩ := h
      have hr := ih h5
      refine ⟨?_, ?_, ?_, ?_⟩ <;>
        simp [visProvide, visConfigure, visMetaProvide, visMetaConfigure,
          h1, h2, h3, h4, hr.1, hr.2.1, hr.2.2.1, hr.2.2.2]

theorem allMetaAbsent_tail (n : HostNode) (rest : HostClassT)
    (h : allMetaAbsent (n :: rest) = true) : allMetaAbsent rest = true := by
  simp only [allMetaAbsent, Bool.and_eq_true] at h
  exact h.2

theorem chain_mem_absent : ∀ ctor : HostClassT, allMetaAbsent ctor = true →
    ∀ c ∈ getInheritanceChain ctor, allMetaAbsent c = true := by
  intro ctor
  induction ctor with
  | nil => intro _ c hc; simp [getInheritanceChain] at hc
  | cons n rest ih =>
      intro h c hc
      rw [getInheritanceChain] at hc
      by_cases hm : n.marker
      · simp [hm] at hc
        rcases hc with hc | hc
        · exact ih (allMetaAbsent_tail n rest h) c hc
        · rw [hc]; exact h
      · simp [hm] at hc

theorem foldMeta_id_of_absent : ∀ (chain : List HostClassT)
    (acc : List (String × FeatureDefinition) × List (String × CfgEntry)),
    (∀ c ∈ chain, allMetaAbsent c = true) →
    chain.foldl foldMetaStep acc = acc := by
  intro chain
  induction chain with
  | nil => intro acc _; rfl
  | cons c0 rest ih =>
      intro acc h
      have h0 := vis_absent c0 (h c0 (by simp))
      have hstep : foldMetaStep acc c0 = acc := by
        simp [foldMetaStep, h0.1, h0.2.1, h0.2.2.1, h0.2.2.2]
      rw [List.foldl_cons, hstep]
      exact ih acc (fun c hc => h c (by simp [hc]))

theorem cacheFind_append_self (cache : ResolveCache) (k : Nat)
    (r : ResolvedFeatures) (h : cacheFind cache k = none) :
    cacheFind (cache ++ [(k, r)]) k = some r := by
  induction cache with
  | nil => simp [cacheFind]
  | cons hd tl ih =>
      by_cases hk : hd.1 = k
      · simp [cacheFind, hk] at h
      · simp [cacheFind, hk] at h ⊢
        exact ih h

/-! ## Theorems -/

/-- C1: writing a value `v` to a declared property `p` behaves by three
guards: a value identical to the internal cache is a complete no-op; else a
value identical to the host's current value only updates the internal cache
(no host write, no update request); else the value is written onto the host
property, mirrored into the internal cache, and — unless updates are
suspended — exactly one update request for `p` carrying the previous host
value is issued. -/
theorem setProp_write_guards (fs : FeatureState) (hs : HostState) (p : String) (v : JSVal) :
    (getInternalValue fs p = v → setProp fs hs p v = (fs, hs)) ∧
    (getInternalValue fs p ≠ v → getHostVal hs p = v →
      setProp fs hs p v = (setInternalValue fs p v, hs)) ∧
    (getInternalValue fs p ≠ v → getHostVal hs p ≠ v →
      setProp fs hs p v =
        (setInternalValue fs p v,
          { props := setKey hs.props p v
            updates := hs.updates ++
              (if fs.suspend then [] else [UpdateReq.named p (getHostVal hs p)]) })) := by
  refine ⟨fun h1 => ?_, fun h1 h2 => ?_, fun h1 h2 => ?_⟩
  · simp [setProp, h1]
  · simp [setProp, h1, h2]
  · cases hsusp : fs.suspend <;> simp [setProp, h1, h2, hsusp]

/-- Witness for C1: the three guards evaluated on concrete states. -/
theorem setProp_write_guards_witness :
    setProp ⟨[("p", some 1)], ["p"], false⟩ ⟨[("p", some 2)], []⟩ "p" (some 1) =
      (⟨[("p", some 1)], ["p"], false⟩, ⟨[("p", some 2)], []⟩) ∧
    setProp ⟨[("p", some 1)], ["p"], false⟩ ⟨[("p", some 2)], []⟩ "p" (some 2) =
      (setInternalValue ⟨[("p", some 1)], ["p"], false⟩ "p" (some 2),
        ⟨[("p", some 2)], []⟩) ∧
    setProp ⟨[("p", some 1)], ["p"], false⟩ ⟨[("p", some 2)], []⟩ "p" (some 3) =
      (setInternalValue ⟨[("p", some 1)], ["p"], false⟩ "p" (some 3),
        { props := setKey [("p", some 2)] "p" (some 3)
          updates := [] ++
            (if (false : Bool) then []
              else [UpdateReq.named "p" (getHostVal ⟨[("p", some 2)], []⟩ "p")]) }) :=
  ⟨(setProp_write_guards _ _ _ _).1 (by decide),
    (setProp_write_guards _ _ _ _).2.1 (by decide) (by decide),
    (setProp_write_guards ⟨[("p", some 1)], ["p"], false⟩ ⟨[("p", some 2)], []⟩
      "p" (some 3)).2.2 (by decide) (by decide)⟩

/-- C4: with no cache entry for the class, the first `resolveFeatures` call
computes the resolution and stores it keyed by the exact class identity,
and the second call on the same class returns that stored object unchanged,
leaving the cache untouched. -/
theorem resolveFeatures_memoized (ctor : HostClassT) (cache : ResolveCache)
    (h : cacheFind cache (hostCid ctor) = none) :
    resolveFeatures ctor cache =
      (resolveFeaturesCore ctor, cache ++ [(hostCid ctor, resolveFeaturesCore ctor)]) ∧
    cacheFind (cache ++ [(hostCid ctor, resolveFeaturesCore ctor)]) (hostCid ctor) =
      some (resolveFeaturesCore ctor) ∧
    resolveFeatures ctor (cache ++ [(hostCid ctor, resolveFeaturesCore ctor)]) =
      (resolveFeaturesCore ctor, cache ++ [(hostCid ctor, resolveFeaturesCore ctor)]) := by
  have hfind := cacheFind_append_self cache (hostCid ctor) (resolveFeaturesCore ctor) h
  refine ⟨?_, hfind, ?_⟩
  · simp [resolveFeatures, h]
  · simp [resolveFeatures, hfind]

/-- Witness for C4: a concrete class resolved against the empty cache. -/
theorem resolveFeatures_memoized_witness :
    cacheFind [] (hostCid [⟨7, true, none, none, none, none⟩]) = none ∧
    (resolveFeatures [⟨7, true, none, none, none, none⟩] [] =
      (resolveFeaturesCore [⟨7, true, none, none, none, none⟩],
        [] ++ [(hostCid [⟨7, true, none, none, none, none⟩],
          resolveFeaturesCore [⟨7, true, none, none, none, none⟩])]) ∧
    cacheFind ([] ++ [(hostCid [⟨7, true, none, none, none, none⟩],
        resolveFeaturesCore [⟨7, true, none, none, none, none⟩])])
        (hostCid [⟨7, true, none, none, none, none⟩]) =
      some (resolveFeaturesCore [⟨7, true, none, none, none, none⟩]) ∧
    resolveFeatures [⟨7, true, none, none, none, none⟩]
        ([] ++ [(hostCid [⟨7, true, none, none, none, none⟩],
          resolveFeaturesCore [⟨7, true, none, none, none, none⟩])]) =
      (resolveFeaturesCore [⟨7, true, none, none, none, none⟩],
        [] ++ [(hostCid [⟨7, true, none, none, none, none⟩],
          resolveFeaturesCore [⟨7, true, none, none, none, none⟩])])) :=
  ⟨rfl, resolveFeatures_memoized [⟨7, true, none, none, none, none⟩] [] rfl⟩

/-- C3: on a fresh host, constructing the manager over three features whose
field initializers each write one default property issues four update
requests — one named request per default write (the constructor runs before
`_suspendUpdateRequests` is called, so the writes are not suspended) plus
the final consolidated argumentless request — not the single consolidated
request the spec describes. -/
theorem initFeatures_defaults_not_batched :
    (initFeatures ⟨[], []⟩
      [("A", ⟨["a"], [("a", some 1)]⟩), ("B", ⟨["b"], [("b", some 2)]⟩),
        ("C", ⟨["c"], [("c", some 3)]⟩)]).2.updates =
      [UpdateReq.named "a" none, UpdateReq.named "b" none,
        UpdateReq.named "c" none, UpdateReq.plain] ∧
    (initFeatures ⟨[], []⟩
      [("A", ⟨["a"], [("a", some 1)]⟩), ("B", ⟨["b"], [("b", some 2)]⟩),
        ("C", ⟨["c"], [("c", some 3)]⟩)]).2.updates.length = 4 := by
  exact ⟨rfl, rfl⟩

theorem hostChain_eq_takeWhile (c : HostClassT) :
    getInheritanceChain c = ((hostAncestors c).takeWhile hostMarked).reverse := by
  induction c with
  | nil => rfl
  | cons n rest ih =>
      cases hm : n.marker <;>
        simp [getInheritanceChain, hostAncestors, hostMarked, hm, ih,
          List.takeWhile_cons]

theorem hostChain_nil_of_unmarked (c : HostClassT) (h : hostMarked c = false) :
    getInheritanceChain c = [] := by
  cases c with
  | nil => rfl
  | cons n rest =>
      simp [hostMarked] at h
      simp [getInheritanceChain, h]

theorem featureChain_nil_of_unmarked (f : FeatureClassT)
    (h : featureMarked f = false) : featureChain f = [] := by
  cases f with
  | nil => rfl
  | cons n rest =>
      simp [featureMarked] at h
      simp [featureChain, h]

theorem featureChain_eq_takeWhile (f : FeatureClassT)
    (hb : featureBaseOk f = true) :
    featureChain f = ((featureAncestors f).takeWhile featureMarked).reverse := by
  induction f with
  | nil => rfl
  | cons n rest ih =>
      have hsplit : (!n.isBase || !featureMarked rest) = true ∧
          featureBaseOk rest = true := by
        simpa [featureBaseOk, Bool.and_eq_true] using hb
      cases hm : n.marker
      · simp [featureChain, featureAncestors, featureMarked, hm,
          List.takeWhile_cons]
      · cases hib : n.isBase
        · simp [featureChain, featureAncestors, featureMarked, hm, hib,
            ih hsplit.2, List.takeWhile_cons]
        · have hrm : featureMarked rest = false := by
            have := hsplit.1
            simpa [hib] using this
          have htw : (featureAncestors rest).takeWhile featureMarked = [] := by
            cases rest with
            | nil => rfl
            | cons m r2 => simp [featureAncestors, List.takeWhile_cons, hrm]
          simp [featureChain, featureAncestors, featureMarked, hm, hib, htw,
            List.takeWhile_cons]

/-- C7: both chain walkers return the ordered ancestor sequence from the
most-ancestral marked class down to and including the given class — the
reversed maximal marked prefix of the upward ancestor path — so they stop
at the first unmarked ancestor and never include anything past that
boundary; a marked class whose parent is unmarked or missing yields a chain
of length 1 (the class itself). The feature walker statement assumes the
well-formedness that holds of the real hierarchy (the `LitFeature` base has
no marked ancestor). -/
theorem chain_walkers_return_marked_suffix :
    (∀ c : HostClassT,
      getInheritanceChain c = ((hostAncestors c).takeWhile hostMarked).reverse) ∧
    (∀ (n : HostNode) (rest : HostClassT), n.marker = true →
      hostMarked rest = false → getInheritanceChain (n :: rest) = [n :: rest]) ∧
    (∀ f : FeatureClassT, featureBaseOk f = true →
      featureChain f = ((featureAncestors f).takeWhile featureMarked).reverse) ∧
    (∀ (n : FeatureNode) (rest : FeatureClassT), n.marker = true →
      featureMarked rest = false → featureChain (n :: rest) = [n :: rest]) := by
  refine ⟨hostChain_eq_takeWhile, fun n rest hm hr => ?_,
    featureChain_eq_takeWhile, fun n rest hm hr => ?_⟩
  · simp [getInheritanceChain, hm, hostChain_nil_of_unmarked rest hr]
  · cases hib : n.isBase <;>
      simp [featureChain, hm, hib, featureChain_nil_of_unmarked rest hr]

/-- Witness for C7: the walkers evaluated on a two-class hierarchy whose
root's parent is unmarked. -/
theorem chain_walkers_witness :
    getInheritanceChain
        [⟨2, true, none, none, none, none⟩, ⟨1, true, none, none, none, none⟩,
          ⟨0, false, none, none, none, none⟩] =
      (((hostAncestors
        [⟨2, true, none, none, none, none⟩, ⟨1, true, none, none, none, none⟩,
          ⟨0, false, none, none, none, none⟩]).takeWhile hostMarked).reverse) ∧
    getInheritanceChain [⟨1, true, none, none, none, none⟩] =
      [[⟨1, true, none, none, none, none⟩]] ∧
    featureChain [⟨true, false, none, none, none⟩, ⟨true, true, none, none, none⟩] =
      (((featureAncestors
        [⟨true, false, none, none, none⟩, ⟨true, true, none, none, none⟩]).takeWhile
          featureMarked).reverse) ∧
    featureChain [⟨true, true, none, none, none⟩] =
      [[⟨true, true, none, none, none⟩]] :=
  ⟨chain_walkers_return_marked_suffix.1 _,
    chain_walkers_return_marked_suffix.2.1 _ [] (by decide) (by decide),
    chain_walkers_return_marked_suffix.2.2.1 _ (by decide),
    chain_walkers_return_marked_suffix.2.2.2 _ [] (by decide) (by decide)⟩

theorem dispatchHooks_no_throw (args : List JSVal) :
    ∀ insts : List (String × Option HookBody), noThrow insts = true →
    ∀ log, dispatchHooks insts args log = (log ++ hookCalls insts args, none) := by
  intro insts
  induction insts with
  | nil => intro _ log; simp [dispatchHooks, hookCalls]
  | cons hd tl ih =>
      intro h log
      obtain ⟨name, b⟩ := hd
      cases b with
      | none =>
          have htl : noThrow tl = true := by simpa [noThrow] using h
          simp [dispatchHooks, hookCalls, ih htl]
      | some body =>
          cases body with
          | ok =>
              have htl : noThrow tl = true := by simpa [noThrow] using h
              simp [dispatchHooks, hookCalls, ih htl]
          | throws e => simp [noThrow] at h

theorem dispatchHooks_first_throw (args : List JSVal) :
    ∀ pre : List (String × Option HookBody), noThrow pre = true →
    ∀ (n : String) (e : Nat) (post : List (String × Option HookBody)) log,
      dispatchHooks (pre ++ (n, some (HookBody.throws e)) :: post) args log =
        (log ++ hookCalls pre args ++ [(n, args)], some e) := by
  intro pre
  induction pre with
  | nil => intro _ n e post log; simp [dispatchHooks, hookCalls]
  | cons hd tl ih =>
      intro h n e post log
      obtain ⟨name, b⟩ := hd
      cases b with
      | none =>
          have htl : noThrow tl = true := by simpa [noThrow] using h
          simp [dispatchHooks, hookCalls, ih htl]
      | some body =>
          cases body with
          | ok =>
              have htl : noThrow tl = true := by simpa [noThrow] using h
              simp [dispatchHooks, hookCalls, ih htl]
          | throws e2 => simp [noThrow] at h

/-- C8: `processLifecycle` calls the named hook, when defined, on every
attached instance in declaration order with the arguments passed through
unchanged; a hook that throws is not caught — its exception propagates and
the instances after it are not invoked in that pass. -/
theorem processLifecycle_order_and_abort :
    (∀ (insts : List (String × Option HookBody)) (args : List JSVal),
      noThrow insts = true →
      processLifecycle insts args = (hookCalls insts args, none)) ∧
    (∀ (pre : List (String × Option HookBody)) (n : String) (e : Nat)
      (post : List (String × Option HookBody)) (args : List JSVal),
      noThrow pre = true →
      processLifecycle (pre ++ (n, some (HookBody.throws e)) :: post) args =
        (hookCalls pre args ++ [(n, args)], some e)) := by
  constructor
  · intro insts args h
    simpa [processLifecycle] using dispatchHooks_no_throw args insts h []
  · intro pre n e post args h
    simpa [processLifecycle] using dispatchHooks_first_throw args pre h n e post []

/-- Witness for C8: a clean pass over three instances (one without the
hook), and a pass whose second instance throws with a third instance
pending. -/
theorem processLifecycle_order_and_abort_witness :
    processLifecycle [("A", some HookBody.ok), ("B", none), ("C", some HookBody.ok)]
        [some 4] =
      (hookCalls [("A", some HookBody.ok), ("B", none), ("C", some HookBody.ok)]
        [some 4], none) ∧
    processLifecycle
        ([("A", some HookBody.ok)] ++
          ("B", some (HookBody.throws 9)) :: [("C", some HookBody.ok)]) [some 4] =
      (hookCalls [("A", some HookBody.ok)] [some 4] ++ [("B", [some 4])], some 9) :=
  ⟨processLifecycle_order_and_abort.1 _ _ (by decide),
    processLifecycle_order_and_abort.2 [("A", some HookBody.ok)] "B" 9
      [("C", some HookBody.ok)] [some 4] (by decide)⟩

/-- C6: the final config of a surviving feature deep-merges the definition's
default config with the folded configure entry's config: per key, the
configure side wins on conflicting leaves, nested objects merge
recursively, and keys present on only one side survive. Concretely,
configuring `config.nested.b = 2` over a provided default
`config.nested.a = 1` resolves to final config `nested = (a = 1, b = 2)`,
not `nested = (b = 2)`. -/
theorem finalConfig_deep_merge :
    lookupA (resolveFeaturesCore
      [⟨2, true, some [], some [("F", CfgEntry.entry
          (some (JObj.cons "nested" (JVal.obj (JObj.cons "b" (JVal.atom 2) JObj.nil))
            JObj.nil)) none)], some [], some []⟩,
        ⟨1, true, some [("F", ⟨[⟨true, true, some [], some [], some []⟩],
          some (JObj.cons "nested" (JVal.obj (JObj.cons "a" (JVal.atom 1) JObj.nil))
            JObj.nil), none⟩)], some [], some [], some []⟩]).features "F" =
      some ⟨[⟨true, true, some [], some [], some []⟩],
        JObj.cons "nested"
          (JVal.obj (JObj.cons "a" (JVal.atom 1) (JObj.cons "b" (JVal.atom 2) JObj.nil)))
          JObj.nil⟩ ∧
    (∀ (d s : JObj) (k : String), (keysJ s).Nodup →
      lookupJ (mergeTwo d s) k =
        match lookupJ s k with
        | none => lookupJ d k
        | some sv => some (match lookupJ d k with
            | some dv => mergeVal dv sv
            | none => sv)) :=
  ⟨rfl, fun d s k h => lookupJ_mergeInto k s d h⟩

/-- Witness for C6: the merge characterization evaluated on concrete
objects — a conflicting leaf key where the source wins and a key present
only in the source. -/
theorem finalConfig_deep_merge_witness :
    (keysJ (JObj.cons "x" (JVal.atom 2) (JObj.cons "y" (JVal.atom 3) JObj.nil))).Nodup ∧
    lookupJ (mergeTwo (JObj.cons "x" (JVal.atom 1) JObj.nil)
        (JObj.cons "x" (JVal.atom 2) (JObj.cons "y" (JVal.atom 3) JObj.nil))) "x" =
      some (JVal.atom 2) ∧
    lookupJ (mergeTwo (JObj.cons "x" (JVal.atom 1) JObj.nil)
        (JObj.cons "x" (JVal.atom 2) (JObj.cons "y" (JVal.atom 3) JObj.nil))) "y" =
      some (JVal.atom 3) :=
  ⟨by decide,
    by rw [finalConfig_deep_merge.2 _ _ "x" (by decide)]; decide,
    by rw [finalConfig_deep_merge.2 _ _ "y" (by decide)]; decide⟩

/-- Counterexample for C2: a subclass re-provides feature `F` after an
ancestor's configure entry disabled it; the folded configure entry is still
the disable sentinel, so — contrary to the claim — `F` is absent from the
subclass's resolved features. -/
theorem reprovide_after_disable_still_absent :
    lookupA (resolveFeaturesCore
      [⟨3, true, some [("F", ⟨[⟨true, true, some [], some [], some []⟩],
          some JObj.nil, none⟩)], some [], some [], some []⟩,
        ⟨2, true, some [], some [("F", CfgEntry.disable)], some [], some []⟩,
        ⟨1, true, some [("F", ⟨[⟨true, true, some [], some [], some []⟩],
          some JObj.nil, none⟩)], some [], some [], some []⟩]).features "F" =
      none := rfl

/-- C2 (amended): a provided feature name is absent from the resolved
features map precisely when its folded configure entry is the disable
sentinel or its definition's `enabled` flag is explicitly false; re-providing
a feature disabled by an ancestor's configure entry does not clear the
folded disable, so the feature stays absent (only a later non-disable
configure entry re-enables it). -/
theorem feature_dropped_iff_disabled :
    (∀ (provides : List (String × FeatureDefinition))
        (configs : List (String × CfgEntry)) (name : String)
        (d : FeatureDefinition), (keysA provides).Nodup →
      lookupA provides name = some d →
      (lookupA (buildResolved provides configs).features name = none ↔
        (lookupA configs name = some CfgEntry.disable ∨
          d.enabled = some false))) ∧
    lookupA (resolveFeaturesCore
      [⟨3, true, some [("F", ⟨[⟨true, true, some [], some [], some []⟩],
          some JObj.nil, none⟩)], some [], some [], some []⟩,
        ⟨2, true, some [], some [("F", CfgEntry.disable)], some [], some []⟩,
        ⟨1, true, some [("F", ⟨[⟨true, true, some [], some [], some []⟩],
          some JObj.nil, none⟩)], some [], some [], some []⟩]).features "F" =
      none := by
  constructor
  · intro provides configs name d hnd hp
    have h := buildFold_lookup configs provides
      { properties := [], styles := [], features := [] } name d hnd hp rfl
    rw [buildResolved, h]
    by_cases hc : lookupA configs name = some CfgEntry.disable ∨
        d.enabled = some false
    · simp [hc]
    · simp [hc]
  · rfl

/-- Witness for C2 (amended): the drop-iff evaluated on a one-feature
provides map whose definition is explicitly disabled. -/
theorem feature_dropped_iff_disabled_witness :
    lookupA (buildResolved
        [("F", ⟨[⟨true, true, some [], some [], some []⟩], none, some false⟩)]
        []).features "F" = none ↔
      (lookupA ([] : List (String × CfgEntry)) "F" = some CfgEntry.disable ∨
        (⟨[⟨true, true, some [], some [], some []⟩], none, some false⟩ :
          FeatureDefinition).enabled = some false) :=
  feature_dropped_iff_disabled.1 _ [] "F" _ (by decide) (by rfl)

/-- C10: when a non-disable configure entry follows a disable in the
left-to-right fold of a feature's configure entries, the fold result is a
copy of the later entry alone — none of the pre-disable entries contribute.
Concretely, over a chain that provides `F` with default `x = 0`, configures
`y = 1`, disables, then configures `z = 2`, the feature reappears in the
resolved features with final config `(x = 0, z = 2)`, unaffected by the
pre-disable `y = 1` entry. -/
theorem disable_superseded_by_later_configure :
    (∀ (a : Option CfgEntry) (es : List CfgEntry) (c : Option JObj)
        (p : Option (List (String × PropOverride))),
      (es ++ [CfgEntry.disable, CfgEntry.entry c p]).foldl
        (fun acc e => some (mergeConfigEntries acc e)) a =
        some (CfgEntry.entry c p)) ∧
    lookupA (resolveFeaturesCore
      [⟨4, true, some [], some [("F", CfgEntry.entry
          (some (JObj.cons "z" (JVal.atom 2) JObj.nil)) none)], some [], some []⟩,
        ⟨3, true, some [], some [("F", CfgEntry.disable)], some [], some []⟩,
        ⟨2, true, some [], some [("F", CfgEntry.entry
          (some (JObj.cons "y" (JVal.atom 1) JObj.nil)) none)], some [], some []⟩,
        ⟨1, true, some [("F", ⟨[⟨true, true, some [], some [], some []⟩],
          some (JObj.cons "x" (JVal.atom 0) JObj.nil), none⟩)],
          some [], some [], some []⟩]).features "F" =
      some ⟨[⟨true, true, some [], some [], some []⟩],
        JObj.cons "x" (JVal.atom 0) (JObj.cons "z" (JVal.atom 2) JObj.nil)⟩ := by
  constructor
  · intro a es c p
    rw [List.foldl_append]
    simp [mergeConfigEntries]
  · rfl

/-- C9: resolution is total on missing or partial metadata — a hierarchy in
which no class owns any provide/configure metadata resolves to the empty
state rather than failing — and a configure entry for a feature name with
no corresponding provide entry is silently inert: adding it leaves the
resolved output unchanged. -/
theorem resolution_absent_metadata_inert :
    (∀ ctor : HostClassT, allMetaAbsent ctor = true →
      resolveFeaturesCore ctor = ⟨[], [], []⟩) ∧
    (∀ (provides : List (String × FeatureDefinition))
        (configs : List (String × CfgEntry)) (n : String) (e : CfgEntry),
      lookupA provides n = none →
      buildResolved provides (setKey configs n e) =
        buildResolved provides configs) := by
  constructor
  · intro ctor h
    have hid := foldMeta_id_of_absent (getInheritanceChain ctor) ([], [])
      (chain_mem_absent ctor h)
    simp [resolveFeaturesCore, foldMeta, hid, buildResolved]
  · intro provides configs n e hn
    apply buildResolved_configs_agree
    intro k hk
    obtain ⟨v, hv⟩ := hk
    have hne : k ≠ n := by
      intro he
      rw [he, hn] at hv
      cases hv
    exact lookupA_setKey_ne configs n k e hne

/-- Witness for C9: a metadata-free host class resolves to the empty state,
and a disable entry for an unprovided name leaves a one-feature resolution
unchanged. -/
theorem resolution_absent_metadata_inert_witness :
    resolveFeaturesCore [⟨5, true, none, none, none, none⟩] = ⟨[], [], []⟩ ∧
    buildResolved [("G", ⟨[⟨true, true, some [], some [], some []⟩], none, none⟩)]
        (setKey [] "F" CfgEntry.disable) =
      buildResolved [("G", ⟨[⟨true, true, some [], some [], some []⟩], none, none⟩)]
        [] :=
  ⟨resolution_absent_metadata_inert.1 _ (by decide),
    resolution_absent_metadata_inert.2 _ [] "F" CfgEntry.disable (by rfl)⟩

/-- C5: at first reconciliation with the host value `undefined` and a
non-`undefined` internal default, `firstUpdated` assigns the internal value
through the property setter, whose identical-to-internal guard makes the
assignment a complete no-op: the default is never written onto the host,
which still reads `undefined` afterwards. -/
theorem firstUpdated_default_not_pushed :
    firstUpdatedRun ⟨[("size", some 5)], ["size"], false⟩ ⟨[], []⟩ =
      (⟨[("size", some 5)], ["size"], false⟩, ⟨[], []⟩) ∧
    getHostVal (firstUpdatedRun ⟨[("size", some 5)], ["size"], false⟩ ⟨[], []⟩).2
      "size" = none := by
  exact ⟨rfl, rfl⟩

end LitFeature
